import Mathlib

/-!
Verification of the LVS health monitor (src/lvs_monitor.cpp).

This file gives a shallow embedding of the monitor into Lean and proves the
specification claims about it.  Modelling conventions:

- Machine integers are modelled by Nat (loss percentages, averages, window
  sizes; all non-negative in the source and far below the int overflow bound
  for the configured window of 60 samples bounded by 100 percent each) and by
  Int (port numbers parsed by the range expander, which can be negative).
- The per-target loss history (a std deque mutated by push_back and pop_front
  in main, lines 179-181) is a List Nat with the front of the list being
  the oldest sample.
- External effects (popen of ping, system of ipvsadm) are modelled by an
  explicit state of declared load-balancer services plus a trace of the
  administrative calls that the process issues.  The system exit codes are
  discarded by the source (cast to void or piped to /dev/null), which the
  model reflects by never branching on the outcome of add or remove calls.
-/

namespace LVSMonitor

/-- Loss threshold in percent (src/lvs_monitor.cpp line 27). -/
def LOSS_THRESHOLD : Nat := 5

/-- Sliding window capacity in samples (src/lvs_monitor.cpp line 28). -/
def WINDOW_SECONDS : Nat := 60

/-- Ping timeout in seconds (src/lvs_monitor.cpp line 29). -/
def PING_TIMEOUT : Nat := 1

/-- Raw TCP port specifications (src/lvs_monitor.cpp line 24). -/
def TCP_SERVICES : List String :=
  ["80", "443", "445", "446", "5201", "55665", "11000-12000"]

/-- Raw UDP port specifications (src/lvs_monitor.cpp line 25). -/
def UDP_SERVICES : List String := ["442", "55665", "11000-12000"]

/-- Health state of one backend.  The source stores the strings UNKNOWN, UP
and DOWN in the server_status map (lines 170-171, 188-194). -/
inductive HealthState
  | UNKNOWN
  | UP
  | DOWN
deriving DecidableEq

/-- One recording step of the sliding window (main, lines 180-181):
push_back the new sample, then pop_front when the size exceeds the window
capacity W. -/
def record (W : Nat) (h : List Nat) (loss : Nat) : List Nat :=
  if W < (h ++ [loss]).length then (h ++ [loss]).tail else h ++ [loss]

/-- Recording a whole sequence of samples in arrival order. -/
def recordAll (W : Nat) (h : List Nat) (losses : List Nat) : List Nat :=
  losses.foldl (record W) h

/-- Function average_loss (lines 90-95): 0 for an empty history, otherwise
the integer quotient of the sum by the length.  The C division of the
non-negative int sum by the size_t length is Nat division. -/
def average_loss (h : List Nat) : Nat :=
  if h.isEmpty then 0 else h.sum / h.length

/-- The transition policy inlined in main (lines 188-194), exposed as the
evaluate function of the specification: threshold T, current average avg,
current state st; returns the new state and whether a transition fired. -/
def evaluate (T : Nat) (avg : Nat) (st : HealthState) : HealthState × Bool :=
  if avg ≥ T ∧ st ≠ .DOWN then (.DOWN, true)
  else if avg < T ∧ st ≠ .UP then (.UP, true)
  else (st, false)

/-! Sliding-window lemmas. -/

theorem tail_append_of_ne_nil {α : Type} (A B : List α) (h : A ≠ []) :
    A.tail ++ B = (A ++ B).tail := by
  cases A with
  | nil => exact absurd rfl h
  | cons a A => simp

theorem record_of_room (W : Nat) (h : List Nat) (loss : Nat)
    (hlt : h.length < W) : record W h loss = h ++ [loss] := by
  have hneg : ¬ W < (h ++ [loss]).length := by
    simp only [List.length_append, List.length_singleton]
    omega
  rw [record, if_neg hneg]

theorem record_of_full (W : Nat) (h : List Nat) (loss : Nat)
    (hge : W ≤ h.length) : record W h loss = (h ++ [loss]).tail := by
  have hpos : W < (h ++ [loss]).length := by
    simp only [List.length_append, List.length_singleton]
    omega
  rw [record, if_pos hpos]

theorem recordAll_eq (W : Nat) :
    ∀ (l h : List Nat), h.length ≤ W →
      recordAll W h l = (h ++ l).drop (h.length + l.length - W) := by
  intro l
  induction l with
  | nil =>
      intro h hle
      have hz : h.length + ([] : List Nat).length - W = 0 := by
        simp only [List.length_nil]
        omega
      rw [hz, List.append_nil, List.drop_zero]
      rfl
  | cons s rest ih =>
      intro h hle
      have hstep : recordAll W h (s :: rest) = recordAll W (record W h s) rest := by
        simp [recordAll]
      rw [hstep]
      by_cases hc : h.length < W
      · -- the window still has room: plain append
        have hlen : (h ++ [s]).length ≤ W := by
          simp only [List.length_append, List.length_singleton]
          omega
        rw [record_of_room W h s hc, ih _ hlen]
        have e1 : (h ++ [s]) ++ rest = h ++ s :: rest := by simp
        have e2 : (h ++ [s]).length + rest.length - W
            = h.length + (s :: rest).length - W := by
          simp only [List.length_append, List.length_singleton, List.length_cons,
            List.length_nil]
          omega
        rw [e1, e2]
      · -- the window is full: the oldest sample is evicted
        have hW : h.length = W := by omega
        have hlen : (h ++ [s]).tail.length ≤ W := by
          simp only [List.length_tail, List.length_append, List.length_singleton,
            List.length_nil, List.length_cons]
          omega
        rw [record_of_full W h s (by omega), ih _ hlen]
        have hne : h ++ [s] ≠ [] := by simp
        rw [tail_append_of_ne_nil _ rest hne]
        have hdrop : ((h ++ [s]) ++ rest).tail = ((h ++ [s]) ++ rest).drop 1 :=
          (List.drop_one _).symm
        rw [hdrop, List.drop_drop]
        have e1 : (h ++ [s]) ++ rest = h ++ s :: rest := by simp
        have e2 : 1 + ((h ++ [s]).tail.length + rest.length - W)
            = h.length + (s :: rest).length - W := by
          simp only [List.length_tail, List.length_append, List.length_singleton,
            List.length_cons, List.length_nil]
          omega
        rw [e1, e2]

/-- Claim C1: for every sequence of samples recorded for a target, after each
record the history holds exactly the last min(count, WINDOW_SECONDS) samples
in arrival order, and average_loss returns their arithmetic mean truncated
toward zero (integer division), or 0 when the history is empty.  The
hypothesis records that every loss sample is a percentage in [0, 100], the
LossSample range of the data model, under which the Nat embedding of the
C int arithmetic is exact. -/
theorem claim_C1_sliding_window_average (samples : List Nat)
    (hrange : ∀ x ∈ samples, x ≤ 100) :
    recordAll WINDOW_SECONDS [] samples
        = samples.drop (samples.length - WINDOW_SECONDS)
    ∧ (recordAll WINDOW_SECONDS [] samples).length
        = min samples.length WINDOW_SECONDS
    ∧ average_loss (recordAll WINDOW_SECONDS [] samples)
        = (samples.drop (samples.length - WINDOW_SECONDS)).sum
            / min samples.length WINDOW_SECONDS
    ∧ (samples = [] → average_loss (recordAll WINDOW_SECONDS [] samples) = 0) := by
  have hmain : recordAll WINDOW_SECONDS [] samples
      = samples.drop (samples.length - WINDOW_SECONDS) := by
    have := recordAll_eq WINDOW_SECONDS samples [] (by simp)
    simpa using this
  have hlen : (recordAll WINDOW_SECONDS [] samples).length
      = min samples.length WINDOW_SECONDS := by
    rw [hmain, List.length_drop]
    omega
  refine ⟨hmain, hlen, ?_, ?_⟩
  · rw [average_loss]
    by_cases he : (recordAll WINDOW_SECONDS [] samples).isEmpty
    · rw [if_pos he]
      have hdropnil : samples.drop (samples.length - WINDOW_SECONDS) = [] := by
        rw [← hmain]
        exact List.isEmpty_iff.mp he
      rw [hdropnil]
      simp
    · rw [if_neg he, hmain]
      have hl2 : (samples.drop (samples.length - WINDOW_SECONDS)).length
          = min samples.length WINDOW_SECONDS := by
        rw [← hmain]
        exact hlen
      rw [hl2]
  · intro hnil
    subst hnil
    simp [recordAll, average_loss]

/-- Witness for claim C1 at the concrete sample sequence [7, 100, 3]. -/
theorem claim_C1_witness :
    (∀ x ∈ [7, 100, 3], x ≤ 100)
    ∧ recordAll WINDOW_SECONDS [] [7, 100, 3] = [7, 100, 3]
    ∧ average_loss (recordAll WINDOW_SECONDS [] [7, 100, 3]) = 36 :=
  ⟨by decide,
   by
    have h := (claim_C1_sliding_window_average [7, 100, 3] (by decide)).1
    simpa using h,
   by
    have h := (claim_C1_sliding_window_average [7, 100, 3] (by decide)).2.2.1
    simpa using h⟩

/-- Claim C2: the transition policy.  If avg is at least T and the state is
not DOWN the new state is DOWN with transitioned true; else if avg is below
T and the state is not UP the new state is UP with transitioned true; else
the state is unchanged and transitioned is false.  In particular an average
exactly equal to T is classified DOWN and T - 1 is classified UP. -/
theorem claim_C2_evaluate_policy (T avg : Nat) (st : HealthState) :
    (avg ≥ T → st ≠ .DOWN → evaluate T avg st = (.DOWN, true))
    ∧ (avg < T → st ≠ .UP → evaluate T avg st = (.UP, true))
    ∧ (avg ≥ T → st = .DOWN → evaluate T avg st = (st, false))
    ∧ (avg < T → st = .UP → evaluate T avg st = (st, false))
    ∧ ((evaluate T T st).1 = .DOWN)
    ∧ (1 ≤ T → (evaluate T (T - 1) st).1 = .UP) := by
  refine ⟨?_, ?_, ?_, ?_, ?_, ?_⟩
  · intro h1 h2
    rw [evaluate, if_pos ⟨h1, h2⟩]
  · intro h1 h2
    rw [evaluate, if_neg (by rintro ⟨c1, _⟩; omega), if_pos ⟨h1, h2⟩]
  · intro h1 h2
    rw [evaluate, if_neg (by rintro ⟨_, c2⟩; exact c2 h2),
      if_neg (by rintro ⟨c1, _⟩; omega)]
  · intro h1 h2
    rw [evaluate, if_neg (by rintro ⟨c1, _⟩; omega),
      if_neg (by rintro ⟨_, c2⟩; exact c2 h2)]
  · by_cases hst : st = .DOWN
    · subst hst
      rw [evaluate, if_neg (by rintro ⟨_, c2⟩; exact c2 rfl),
        if_neg (by rintro ⟨c1, _⟩; omega)]
    · rw [evaluate, if_pos ⟨le_refl T, hst⟩]
  · intro hT
    by_cases hst : st = .UP
    · subst hst
      rw [evaluate, if_neg (by rintro ⟨c1, _⟩; omega),
        if_neg (by rintro ⟨_, c2⟩; exact c2 rfl)]
    · rw [evaluate, if_neg (by rintro ⟨c1, _⟩; omega), if_pos ⟨by omega, hst⟩]

/-- Witness for claim C2 at T = 5, avg = 7, state UNKNOWN, plus the two
boundary instances avg = 5 and avg = 4 at the configured threshold. -/
theorem claim_C2_witness :
    (7 ≥ 5 ∧ HealthState.UNKNOWN ≠ HealthState.DOWN)
    ∧ evaluate 5 7 .UNKNOWN = (.DOWN, true)
    ∧ (evaluate LOSS_THRESHOLD 5 .UNKNOWN).1 = .DOWN
    ∧ (evaluate LOSS_THRESHOLD 4 .UNKNOWN).1 = .UP :=
  ⟨⟨by decide, by decide⟩,
   (claim_C2_evaluate_policy 5 7 .UNKNOWN).1 (by decide) (by decide),
   (claim_C2_evaluate_policy LOSS_THRESHOLD 5 .UNKNOWN).2.2.2.2.1,
   (claim_C2_evaluate_policy LOSS_THRESHOLD 4 .UNKNOWN).2.2.2.2.2 (by decide)⟩

/-! Reconciliation model.  The source mutates the external LVS tables through
ipvsadm shell commands and keeps a local set created_services of composite
keys proto:port (lines 31-34, 98-162).  The embedding keeps the local
registry and the set of services declared on the load balancer as explicit
state and records every administrative call in a trace. -/

/-- Protocol of a service: the source uses the chars t and u for the ipvsadm
flag and the strings TCP and UDP for the registry key and the grep. -/
inductive Proto
  | TCP
  | UDP
deriving DecidableEq

/-- Composite registry key; the source encodes it as the string proto:port
(line 100), which corresponds one to one with this pair. -/
structure Key where
  proto : Proto
  port : Int
deriving DecidableEq

/-- One administrative call issued to the outside world. -/
inductive Event
  | checkService : Proto → Int → Event
  | createService : Proto → Int → Event
  | addReal : Proto → Int → String → Event
  | removeReal : Proto → Int → String → Event
deriving DecidableEq

/-- State shared with the load balancer: created_services is the local
registry (line 34), lb_services the set of services actually declared on the
LVS instance, consulted by the grep existence check (lines 104-107) and
extended by the create call (lines 108-114). -/
structure LBState where
  created_services : List Key
  lb_services : List Key
deriving DecidableEq

/-- Function create_service_if_needed (lines 98-116).  Registry hit: return
with no external call.  Otherwise run the existence check; if the service is
already declared do nothing more, else issue the create call and record the
key in the registry.  The exit status of the create call is discarded by the
source, so the model lets the create take effect on lb_services. -/
def create_service_if_needed (ty : Proto) (port : Int) (st : LBState) :
    LBState × List Event :=
  if (⟨ty, port⟩ : Key) ∈ st.created_services then (st, [])
  else if (⟨ty, port⟩ : Key) ∈ st.lb_services then (st, [.checkService ty port])
  else (⟨⟨ty, port⟩ :: st.created_services, ⟨ty, port⟩ :: st.lb_services⟩,
        [.checkService ty port, .createService ty port])

/-- One of the two per-protocol loops of add_server_to_lvs (lines 123-129 and
131-137): for each port, ensure the service exists, then issue the add call
(whose output is piped to /dev/null and whose status is discarded). -/
def add_ports_loop (ty : Proto) (ip : String) :
    List Int → LBState → LBState × List Event
  | [], st => (st, [])
  | port :: rest, st =>
      let r1 := create_service_if_needed ty port st
      let r2 := add_ports_loop ty ip rest r1.1
      (r2.1, r1.2 ++ .addReal ty port ip :: r2.2)

/-- Function add_server_to_lvs (lines 119-140), parametrized by the expanded
TCP and UDP port lists that the source recomputes from TCP_SERVICES and
UDP_SERVICES on every call (lines 120-121). -/
def add_server_to_lvs (tcp_ports udp_ports : List Int) (ip : String)
    (st : LBState) : LBState × List Event :=
  let rt := add_ports_loop .TCP ip tcp_ports st
  let ru := add_ports_loop .UDP ip udp_ports rt.1
  (ru.1, rt.2 ++ ru.2)

/-- Function remove_server_from_lvs (lines 143-162): best-effort remove calls
for every configured port, no state consulted or mutated. -/
def remove_server_from_lvs (tcp_ports udp_ports : List Int) (ip : String) :
    List Event :=
  tcp_ports.map (fun port => Event.removeReal .TCP port ip)
    ++ udp_ports.map (fun port => Event.removeReal .UDP port ip)

/-- Effect of one traced call on the shared state: only the create call
changes it, declaring the service and recording the registry key. -/
def applyEvent (st : LBState) : Event → LBState
  | .createService p q => ⟨⟨p, q⟩ :: st.created_services, ⟨p, q⟩ :: st.lb_services⟩
  | _ => st

/-- Trace soundness checker: every add-real-server call is issued only when
its (protocol, port) service is already declared on the load balancer, and
every create call only when it is not yet declared. -/
def okTrace (st : LBState) : List Event → Bool
  | [] => true
  | e :: rest =>
      (match e with
       | .addReal p q _ => decide ((⟨p, q⟩ : Key) ∈ st.lb_services)
       | .createService p q => decide ((⟨p, q⟩ : Key) ∉ st.lb_services)
       | _ => true)
      && okTrace (applyEvent st e) rest

/-! Lemmas about create_service_if_needed.  All of them go through the
explicit three-way case analysis ensure_spec below: registry hit, existence
check hit, and actual creation. -/

theorem ensure_spec (ty : Proto) (port : Int) (st : LBState) :
    ((⟨ty, port⟩ : Key) ∈ st.created_services
      ∧ create_service_if_needed ty port st = (st, []))
    ∨ ((⟨ty, port⟩ : Key) ∉ st.created_services
      ∧ (⟨ty, port⟩ : Key) ∈ st.lb_services
      ∧ create_service_if_needed ty port st = (st, [.checkService ty port]))
    ∨ ((⟨ty, port⟩ : Key) ∉ st.created_services
      ∧ (⟨ty, port⟩ : Key) ∉ st.lb_services
      ∧ create_service_if_needed ty port st
          = (⟨⟨ty, port⟩ :: st.created_services, ⟨ty, port⟩ :: st.lb_services⟩,
             [.checkService ty port, .createService ty port])) := by
  by_cases h1 : (⟨ty, port⟩ : Key) ∈ st.created_services
  · exact Or.inl ⟨h1, by rw [create_service_if_needed, if_pos h1]⟩
  · by_cases h2 : (⟨ty, port⟩ : Key) ∈ st.lb_services
    · exact Or.inr (Or.inl
        ⟨h1, h2, by rw [create_service_if_needed, if_neg h1, if_pos h2]⟩)
    · exact Or.inr (Or.inr
        ⟨h1, h2, by rw [create_service_if_needed, if_neg h1, if_neg h2]⟩)

theorem ensure_created_mono (ty : Proto) (port : Int) (st : LBState) :
    st.created_services ⊆ (create_service_if_needed ty port st).1.created_services := by
  rcases ensure_spec ty port st with ⟨h1, heq⟩ | ⟨h1, h2, heq⟩ | ⟨h1, h2, heq⟩ <;>
    rw [heq]
  · exact fun a ha => ha
  · exact fun a ha => ha
  · exact List.subset_cons_self _ _

theorem ensure_inv (ty : Proto) (port : Int) (st : LBState)
    (h : st.created_services ⊆ st.lb_services) :
    (create_service_if_needed ty port st).1.created_services
      ⊆ (create_service_if_needed ty port st).1.lb_services := by
  rcases ensure_spec ty port st with ⟨h1, heq⟩ | ⟨h1, h2, heq⟩ | ⟨h1, h2, heq⟩ <;>
    rw [heq]
  · exact h
  · exact h
  · exact List.cons_subset_cons _ h

theorem ensure_mem_lb (ty : Proto) (port : Int) (st : LBState)
    (h : st.created_services ⊆ st.lb_services) :
    (⟨ty, port⟩ : Key) ∈ (create_service_if_needed ty port st).1.lb_services := by
  rcases ensure_spec ty port st with ⟨h1, heq⟩ | ⟨h1, h2, heq⟩ | ⟨h1, h2, heq⟩ <;>
    rw [heq]
  · exact h h1
  · exact h2
  · simp

theorem ensure_no_addReal (ty : Proto) (port : Int) (st : LBState)
    (p : Proto) (q : Int) (ip : String) :
    Event.addReal p q ip ∉ (create_service_if_needed ty port st).2 := by
  rcases ensure_spec ty port st with ⟨h1, heq⟩ | ⟨h1, h2, heq⟩ | ⟨h1, h2, heq⟩ <;>
    rw [heq] <;> simp

theorem ensure_count_created (ty : Proto) (port : Int) (st : LBState)
    (p : Proto) (q : Int) (h : (⟨p, q⟩ : Key) ∈ st.created_services) :
    ((create_service_if_needed ty port st).2).count (Event.createService p q) = 0 := by
  rcases ensure_spec ty port st with ⟨h1, heq⟩ | ⟨h1, h2, heq⟩ | ⟨h1, h2, heq⟩ <;>
    rw [heq]
  · simp
  · simp
  · rw [List.count_eq_zero]
    intro hmem
    simp only [List.mem_cons, List.not_mem_nil, or_false,
      Event.createService.injEq, reduceCtorEq, false_or] at hmem
    rcases hmem with ⟨rfl, rfl⟩
    exact h1 h

theorem ensure_count_le_one (ty : Proto) (port : Int) (st : LBState)
    (p : Proto) (q : Int) :
    ((create_service_if_needed ty port st).2).count (Event.createService p q) ≤ 1 := by
  rcases ensure_spec ty port st with ⟨h1, heq⟩ | ⟨h1, h2, heq⟩ | ⟨h1, h2, heq⟩ <;>
    rw [heq] <;> simp [List.count_cons]
  split_ifs <;> simp

theorem ensure_created_after (ty : Proto) (port : Int) (st : LBState)
    (p : Proto) (q : Int)
    (h : Event.createService p q ∈ (create_service_if_needed ty port st).2) :
    (⟨p, q⟩ : Key) ∈ (create_service_if_needed ty port st).1.created_services := by
  rcases ensure_spec ty port st with ⟨h1, heq⟩ | ⟨h1, h2, heq⟩ | ⟨h1, h2, heq⟩ <;>
    rw [heq] at h ⊢
  · simp at h
  · simp at h
  · simp only [List.mem_cons, List.not_mem_nil, or_false,
      Event.createService.injEq, reduceCtorEq, false_or] at h
    rcases h with ⟨rfl, rfl⟩
    simp

theorem ensure_created_iff (ty : Proto) (port : Int) (st : LBState)
    (p : Proto) (q : Int) :
    (⟨p, q⟩ : Key) ∈ (create_service_if_needed ty port st).1.created_services
      ↔ (⟨p, q⟩ : Key) ∈ st.created_services
        ∨ Event.createService p q ∈ (create_service_if_needed ty port st).2 := by
  rcases ensure_spec ty port st with ⟨h1, heq⟩ | ⟨h1, h2, heq⟩ | ⟨h1, h2, heq⟩ <;>
    rw [heq]
  · simp
  · simp
  · simp only [List.mem_cons, List.not_mem_nil, or_false,
      Event.createService.injEq, reduceCtorEq, false_or, Key.mk.injEq]
    constructor
    · rintro (⟨rfl, rfl⟩ | hmem)
      · exact Or.inr ⟨rfl, rfl⟩
      · exact Or.inl hmem
    · rintro (hmem | ⟨rfl, rfl⟩)
      · exact Or.inr hmem
      · exact Or.inl ⟨rfl, rfl⟩

theorem ensure_nodup (ty : Proto) (port : Int) (st : LBState)
    (h : st.created_services.Nodup) :
    (create_service_if_needed ty port st).1.created_services.Nodup := by
  rcases ensure_spec ty port st with ⟨h1, heq⟩ | ⟨h1, h2, heq⟩ | ⟨h1, h2, heq⟩ <;>
    rw [heq]
  · exact h
  · exact h
  · exact List.nodup_cons.mpr ⟨h1, h⟩

theorem ensure_fold (ty : Proto) (port : Int) (st : LBState) :
    (create_service_if_needed ty port st).1
      = List.foldl applyEvent st (create_service_if_needed ty port st).2 := by
  rcases ensure_spec ty port st with ⟨h1, heq⟩ | ⟨h1, h2, heq⟩ | ⟨h1, h2, heq⟩ <;>
    rw [heq] <;> simp [applyEvent]

theorem ensure_ok (ty : Proto) (port : Int) (st : LBState)
    (_h : st.created_services ⊆ st.lb_services) :
    okTrace st (create_service_if_needed ty port st).2 = true := by
  rcases ensure_spec ty port st with ⟨h1, heq⟩ | ⟨h1, h2, heq⟩ | ⟨h1, h2, heq⟩ <;>
    rw [heq]
  · simp [okTrace]
  · simp [okTrace, applyEvent]
  · simp [okTrace, applyEvent, h2]

theorem ensure_check_of_not_recorded (ty : Proto) (port : Int) (st : LBState)
    (h : (⟨ty, port⟩ : Key) ∉ st.created_services) :
    Event.checkService ty port ∈ (create_service_if_needed ty port st).2 := by
  rcases ensure_spec ty port st with ⟨h1, heq⟩ | ⟨h1, h2, heq⟩ | ⟨h1, h2, heq⟩ <;>
    rw [heq]
  · exact absurd h1 h
  · simp
  · simp

/-! Generic lemmas about traces. -/

theorem okTrace_append (a b : List Event) :
    ∀ st : LBState, okTrace st (a ++ b)
      = (okTrace st a && okTrace (List.foldl applyEvent st a) b) := by
  induction a with
  | nil => intro st; simp [okTrace]
  | cons e rest ih =>
      intro st
      simp only [List.cons_append, okTrace, List.append_eq, List.foldl_cons, ih,
        Bool.and_assoc]

theorem lb_mono_foldl (tr : List Event) :
    ∀ st : LBState, st.lb_services ⊆ (List.foldl applyEvent st tr).lb_services := by
  induction tr with
  | nil => intro st; simp
  | cons e rest ih =>
      intro st
      rw [List.foldl_cons]
      refine List.Subset.trans ?_ (ih (applyEvent st e))
      cases e <;> simp [applyEvent, List.subset_cons_self]

theorem ok_no_create_after_add (st : LBState) (tr : List Event)
    (hok : okTrace st tr = true) (p : Proto) (q : Int) (ip2 : String)
    (t1 t2 t3 : List Event)
    (heq : tr = t1 ++ .addReal p q ip2 :: (t2 ++ .createService p q :: t3)) :
    False := by
  subst heq
  rw [okTrace_append] at hok
  rcases Bool.and_eq_true .. |>.mp hok with ⟨_, hok2⟩
  rw [okTrace] at hok2
  rcases Bool.and_eq_true .. |>.mp hok2 with ⟨hmem, hok3⟩
  have hmem2 : (⟨p, q⟩ : Key) ∈ (List.foldl applyEvent st t1).lb_services :=
    of_decide_eq_true hmem
  have happ : applyEvent (List.foldl applyEvent st t1) (.addReal p q ip2)
      = List.foldl applyEvent st t1 := by simp [applyEvent]
  rw [happ, okTrace_append] at hok3
  rcases Bool.and_eq_true .. |>.mp hok3 with ⟨_, hok4⟩
  rw [okTrace] at hok4
  rcases Bool.and_eq_true .. |>.mp hok4 with ⟨hnot, _⟩
  have hnot2 : (⟨p, q⟩ : Key)
      ∉ (List.foldl applyEvent (List.foldl applyEvent st t1) t2).lb_services :=
    of_decide_eq_true hnot
  exact hnot2 (lb_mono_foldl t2 _ hmem2)

/-! Lemmas about add_ports_loop, by induction on the port list. -/

theorem addLoop_cons (ty : Proto) (ip : String) (port : Int) (rest : List Int)
    (st : LBState) :
    add_ports_loop ty ip (port :: rest) st
      = ((add_ports_loop ty ip rest (create_service_if_needed ty port st).1).1,
         (create_service_if_needed ty port st).2
           ++ .addReal ty port ip
             :: (add_ports_loop ty ip rest (create_service_if_needed ty port st).1).2) :=
  rfl

theorem addLoop_created_mono (ty : Proto) (ip : String) (ports : List Int) :
    ∀ st : LBState,
      st.created_services ⊆ (add_ports_loop ty ip ports st).1.created_services := by
  induction ports with
  | nil => intro st; exact fun a ha => ha
  | cons port rest ih =>
      intro st
      rw [addLoop_cons]
      exact List.Subset.trans (ensure_created_mono ty port st) (ih _)

theorem addLoop_inv (ty : Proto) (ip : String) (ports : List Int) :
    ∀ st : LBState, st.created_services ⊆ st.lb_services →
      (add_ports_loop ty ip ports st).1.created_services
        ⊆ (add_ports_loop ty ip ports st).1.lb_services := by
  induction ports with
  | nil => intro st h; exact h
  | cons port rest ih =>
      intro st h
      rw [addLoop_cons]
      exact ih _ (ensure_inv ty port st h)

theorem addLoop_fold (ty : Proto) (ip : String) (ports : List Int) :
    ∀ st : LBState,
      (add_ports_loop ty ip ports st).1
        = List.foldl applyEvent st (add_ports_loop ty ip ports st).2 := by
  induction ports with
  | nil => intro st; rfl
  | cons port rest ih =>
      intro st
      rw [addLoop_cons]
      simp only [List.foldl_append, List.foldl_cons]
      rw [← ensure_fold]
      have happ : applyEvent (create_service_if_needed ty port st).1
          (.addReal ty port ip) = (create_service_if_needed ty port st).1 := by
        simp [applyEvent]
      rw [happ, ← ih]

theorem addLoop_ok (ty : Proto) (ip : String) (ports : List Int) :
    ∀ st : LBState, st.created_services ⊆ st.lb_services →
      okTrace st (add_ports_loop ty ip ports st).2 = true := by
  induction ports with
  | nil => intro st _; rfl
  | cons port rest ih =>
      intro st h
      rw [addLoop_cons]
      simp only [okTrace_append, Bool.and_eq_true]
      refine ⟨ensure_ok ty port st h, ?_⟩
      rw [← ensure_fold, okTrace]
      simp only [Bool.and_eq_true]
      constructor
      · exact decide_eq_true (ensure_mem_lb ty port st h)
      · have happ : applyEvent (create_service_if_needed ty port st).1
            (.addReal ty port ip) = (create_service_if_needed ty port st).1 := by
          simp [applyEvent]
        rw [happ]
        exact ih _ (ensure_inv ty port st h)

theorem addLoop_count_created (ty : Proto) (ip : String) (p : Proto) (q : Int)
    (ports : List Int) :
    ∀ st : LBState, (⟨p, q⟩ : Key) ∈ st.created_services →
      (add_ports_loop ty ip ports st).2.count (Event.createService p q) = 0 := by
  induction ports with
  | nil => intro st _; rfl
  | cons port rest ih =>
      intro st h
      rw [addLoop_cons]
      simp only [List.count_append, List.count_cons]
      rw [ensure_count_created ty port st p q h,
        ih _ (ensure_created_mono ty port st h)]
      simp

theorem addLoop_created_after (ty : Proto) (ip : String) (p : Proto) (q : Int)
    (ports : List Int) :
    ∀ st : LBState,
      Event.createService p q ∈ (add_ports_loop ty ip ports st).2 →
      (⟨p, q⟩ : Key) ∈ (add_ports_loop ty ip ports st).1.created_services := by
  induction ports with
  | nil => intro st h; exact absurd h (List.not_mem_nil _)
  | cons port rest ih =>
      intro st h
      rw [addLoop_cons] at h ⊢
      simp only [List.mem_append, List.mem_cons] at h
      rcases h with h | h | h
      · exact addLoop_created_mono ty ip rest _ (ensure_created_after ty port st p q h)
      · exact absurd h (by simp)
      · exact ih _ h

theorem addLoop_count_le_one (ty : Proto) (ip : String) (p : Proto) (q : Int)
    (ports : List Int) :
    ∀ st : LBState,
      (add_ports_loop ty ip ports st).2.count (Event.createService p q) ≤ 1 := by
  induction ports with
  | nil => intro st; simp [add_ports_loop]
  | cons port rest ih =>
      intro st
      rw [addLoop_cons]
      simp only [List.count_append, List.count_cons]
      by_cases hmem : Event.createService p q ∈ (create_service_if_needed ty port st).2
      · have h1 : (add_ports_loop ty ip rest
            (create_service_if_needed ty port st).1).2.count
              (Event.createService p q) = 0 :=
          addLoop_count_created ty ip p q rest _
            (ensure_created_after ty port st p q hmem)
        have h2 := ensure_count_le_one ty port st p q
        simp only [h1]
        have : (Event.addReal ty port ip == Event.createService p q) = false := by
          simp
        rw [this]
        simpa using h2
      · have h1 : ((create_service_if_needed ty port st).2).count
            (Event.createService p q) = 0 := List.count_eq_zero.mpr hmem
        rw [h1]
        have : (Event.addReal ty port ip == Event.createService p q) = false := by
          simp
        rw [this]
        simpa using ih _

theorem addLoop_created_iff (ty : Proto) (ip : String) (p : Proto) (q : Int)
    (ports : List Int) :
    ∀ st : LBState,
      ((⟨p, q⟩ : Key) ∈ (add_ports_loop ty ip ports st).1.created_services
        ↔ (⟨p, q⟩ : Key) ∈ st.created_services
          ∨ Event.createService p q ∈ (add_ports_loop ty ip ports st).2) := by
  induction ports with
  | nil => intro st; simp [add_ports_loop]
  | cons port rest ih =>
      intro st
      rw [addLoop_cons]
      simp only [List.mem_append, List.mem_cons]
      rw [ih _, ensure_created_iff ty port st p q]
      constructor
      · rintro ((h | h) | h)
        · exact Or.inl h
        · exact Or.inr (Or.inl h)
        · exact Or.inr (Or.inr (Or.inr h))
      · rintro (h | h | h | h)
        · exact Or.inl (Or.inl h)
        · exact Or.inl (Or.inr h)
        · exact absurd h (by simp)
        · exact Or.inr h

theorem addLoop_nodup (ty : Proto) (ip : String) (ports : List Int) :
    ∀ st : LBState, st.created_services.Nodup →
      (add_ports_loop ty ip ports st).1.created_services.Nodup := by
  induction ports with
  | nil => intro st h; exact h
  | cons port rest ih =>
      intro st h
      rw [addLoop_cons]
      exact ih _ (ensure_nodup ty port st h)

theorem ensure_create_eq (ty : Proto) (port : Int) (st : LBState)
    (p : Proto) (q : Int)
    (h : Event.createService p q ∈ (create_service_if_needed ty port st).2) :
    p = ty ∧ q = port := by
  rcases ensure_spec ty port st with ⟨h1, heq⟩ | ⟨h1, h2, heq⟩ | ⟨h1, h2, heq⟩ <;>
    rw [heq] at h
  · simp at h
  · simp at h
  · simp only [List.mem_cons, List.not_mem_nil, or_false,
      Event.createService.injEq, reduceCtorEq, false_or] at h
    exact h

theorem addLoop_create_proto (ty : Proto) (ip : String) (p : Proto) (q : Int)
    (ports : List Int) :
    ∀ st : LBState,
      Event.createService p q ∈ (add_ports_loop ty ip ports st).2 → p = ty := by
  induction ports with
  | nil => intro st h; exact absurd h (List.not_mem_nil _)
  | cons port rest ih =>
      intro st h
      rw [addLoop_cons] at h
      simp only [List.mem_append, List.mem_cons] at h
      rcases h with h | h | h
      · exact (ensure_create_eq ty port st p q h).1
      · exact absurd h (by simp)
      · exact ih _ h

/-! Lemmas about add_server_to_lvs, composing the two per-protocol loops. -/

theorem add_server_eq (tcp udp : List Int) (ip : String) (st : LBState) :
    add_server_to_lvs tcp udp ip st
      = ((add_ports_loop .UDP ip udp (add_ports_loop .TCP ip tcp st).1).1,
         (add_ports_loop .TCP ip tcp st).2
           ++ (add_ports_loop .UDP ip udp (add_ports_loop .TCP ip tcp st).1).2) :=
  rfl

theorem add_server_created_mono (tcp udp : List Int) (ip : String) (st : LBState) :
    st.created_services ⊆ (add_server_to_lvs tcp udp ip st).1.created_services := by
  rw [add_server_eq]
  exact List.Subset.trans (addLoop_created_mono .TCP ip tcp st)
    (addLoop_created_mono .UDP ip udp _)

theorem add_server_inv (tcp udp : List Int) (ip : String) (st : LBState)
    (h : st.created_services ⊆ st.lb_services) :
    (add_server_to_lvs tcp udp ip st).1.created_services
      ⊆ (add_server_to_lvs tcp udp ip st).1.lb_services := by
  rw [add_server_eq]
  exact addLoop_inv .UDP ip udp _ (addLoop_inv .TCP ip tcp st h)

theorem add_server_fold (tcp udp : List Int) (ip : String) (st : LBState) :
    (add_server_to_lvs tcp udp ip st).1
      = List.foldl applyEvent st (add_server_to_lvs tcp udp ip st).2 := by
  rw [add_server_eq]
  simp only [List.foldl_append]
  rw [← addLoop_fold, ← addLoop_fold]

theorem add_server_ok (tcp udp : List Int) (ip : String) (st : LBState)
    (h : st.created_services ⊆ st.lb_services) :
    okTrace st (add_server_to_lvs tcp udp ip st).2 = true := by
  rw [add_server_eq]
  simp only [okTrace_append, Bool.and_eq_true]
  refine ⟨addLoop_ok .TCP ip tcp st h, ?_⟩
  rw [← addLoop_fold]
  exact addLoop_ok .UDP ip udp _ (addLoop_inv .TCP ip tcp st h)

theorem add_server_nodup (tcp udp : List Int) (ip : String) (st : LBState)
    (h : st.created_services.Nodup) :
    (add_server_to_lvs tcp udp ip st).1.created_services.Nodup := by
  rw [add_server_eq]
  exact addLoop_nodup .UDP ip udp _ (addLoop_nodup .TCP ip tcp st h)

theorem add_server_count_created (tcp udp : List Int) (ip : String) (st : LBState)
    (p : Proto) (q : Int) (h : (⟨p, q⟩ : Key) ∈ st.created_services) :
    (add_server_to_lvs tcp udp ip st).2.count (Event.createService p q) = 0 := by
  rw [add_server_eq]
  simp only [List.count_append]
  rw [addLoop_count_created .TCP ip p q tcp st h,
    addLoop_count_created .UDP ip p q udp _ (addLoop_created_mono .TCP ip tcp st h)]

theorem add_server_count_le_one (tcp udp : List Int) (ip : String) (st : LBState)
    (p : Proto) (q : Int) :
    (add_server_to_lvs tcp udp ip st).2.count (Event.createService p q) ≤ 1 := by
  rw [add_server_eq]
  simp only [List.count_append]
  by_cases hmem : Event.createService p q ∈ (add_ports_loop .TCP ip tcp st).2
  · have hp : p = Proto.TCP := addLoop_create_proto .TCP ip p q tcp st hmem
    have hzero : (add_ports_loop .UDP ip udp (add_ports_loop .TCP ip tcp st).1).2.count
        (Event.createService p q) = 0 := by
      rw [List.count_eq_zero]
      intro hm2
      have := addLoop_create_proto .UDP ip p q udp _ hm2
      rw [hp] at this
      exact Proto.noConfusion this
    rw [hzero]
    simpa using addLoop_count_le_one .TCP ip p q tcp st
  · rw [List.count_eq_zero.mpr hmem]
    simpa using addLoop_count_le_one .UDP ip p q udp _

theorem add_server_created_after (tcp udp : List Int) (ip : String) (st : LBState)
    (p : Proto) (q : Int)
    (h : Event.createService p q ∈ (add_server_to_lvs tcp udp ip st).2) :
    (⟨p, q⟩ : Key) ∈ (add_server_to_lvs tcp udp ip st).1.created_services := by
  rw [add_server_eq] at h ⊢
  simp only [List.mem_append] at h
  rcases h with h | h
  · exact addLoop_created_mono .UDP ip udp _
      (addLoop_created_after .TCP ip p q tcp st h)
  · exact addLoop_created_after .UDP ip p q udp _ h

theorem add_server_created_iff (tcp udp : List Int) (ip : String) (st : LBState)
    (p : Proto) (q : Int) :
    (⟨p, q⟩ : Key) ∈ (add_server_to_lvs tcp udp ip st).1.created_services
      ↔ (⟨p, q⟩ : Key) ∈ st.created_services
        ∨ Event.createService p q ∈ (add_server_to_lvs tcp udp ip st).2 := by
  rw [add_server_eq]
  simp only [List.mem_append]
  rw [addLoop_created_iff .UDP ip p q udp _, addLoop_created_iff .TCP ip p q tcp st]
  tauto

theorem remove_no_create (tcp udp : List Int) (ip : String) (p : Proto) (q : Int) :
    Event.createService p q ∉ remove_server_from_lvs tcp udp ip := by
  rw [remove_server_from_lvs]
  simp

/-- Claim C3: invoking add_server_to_lvs twice consecutively for the same
target and port set leaves the registry duplicate-free and issues at most one
create-service call per (protocol, port) key across both invocations.  The
add-real-server calls themselves never influence this: their exit status is
discarded by the source (piped to /dev/null), so a second add rejected as
already present has no effect, and no code path signals an error: the model
is a total function. -/
theorem claim_C3_double_add_idempotent (tcp udp : List Int) (ip : String)
    (st : LBState) (hnd : st.created_services.Nodup) :
    (add_server_to_lvs tcp udp ip
        (add_server_to_lvs tcp udp ip st).1).1.created_services.Nodup
    ∧ ∀ (p : Proto) (q : Int),
        ((add_server_to_lvs tcp udp ip st).2
          ++ (add_server_to_lvs tcp udp ip
                (add_server_to_lvs tcp udp ip st).1).2).count
            (Event.createService p q) ≤ 1 := by
  constructor
  · exact add_server_nodup tcp udp ip _ (add_server_nodup tcp udp ip st hnd)
  · intro p q
    rw [List.count_append]
    by_cases hmem : Event.createService p q ∈ (add_server_to_lvs tcp udp ip st).2
    · have h1 : (⟨p, q⟩ : Key)
          ∈ (add_server_to_lvs tcp udp ip st).1.created_services :=
        add_server_created_after tcp udp ip st p q hmem
      have h2 : (add_server_to_lvs tcp udp ip
          (add_server_to_lvs tcp udp ip st).1).2.count
            (Event.createService p q) = 0 :=
        add_server_count_created tcp udp ip _ p q h1
      rw [h2]
      simpa using add_server_count_le_one tcp udp ip st p q
    · rw [List.count_eq_zero.mpr hmem]
      simpa using add_server_count_le_one tcp udp ip _ p q

/-- Witness for claim C3 on one TCP port 80 and one UDP port 442 from the
empty initial state. -/
theorem claim_C3_witness :
    (add_server_to_lvs [80] [442] "10.1.1.2"
        (add_server_to_lvs [80] [442] "10.1.1.2"
          ⟨[], []⟩).1).1.created_services.Nodup
    ∧ ((add_server_to_lvs [80] [442] "10.1.1.2" ⟨[], []⟩).2
        ++ (add_server_to_lvs [80] [442] "10.1.1.2"
              (add_server_to_lvs [80] [442] "10.1.1.2" ⟨[], []⟩).1).2).count
          (Event.createService .TCP 80) ≤ 1 :=
  ⟨(claim_C3_double_add_idempotent [80] [442] "10.1.1.2" ⟨[], []⟩
      List.nodup_nil).1,
   (claim_C3_double_add_idempotent [80] [442] "10.1.1.2" ⟨[], []⟩
      List.nodup_nil).2 .TCP 80⟩

/-- Claim C6: in the trace of calls produced by add_server_to_lvs, for every
(protocol, port) the ensure step completes before the add-real-server call
for that key: okTrace asserts that every add-real-server call is issued with
its service already declared on the load balancer (and every create call
only when it is absent), and no add-real-server call for a key is ever
followed later in the trace by the create-service call for that same key.
The hypothesis is that every registry entry corresponds to a declared
service, which holds in every reachable state of the process (that set
starts empty). -/
theorem claim_C6_ensure_before_add (tcp udp : List Int) (ip : String)
    (st : LBState) (h : st.created_services ⊆ st.lb_services) :
    okTrace st (add_server_to_lvs tcp udp ip st).2 = true
    ∧ ∀ (p : Proto) (q : Int) (ip2 : String) (t1 t2 t3 : List Event),
        (add_server_to_lvs tcp udp ip st).2
            = t1 ++ .addReal p q ip2 :: (t2 ++ .createService p q :: t3) →
        False := by
  refine ⟨add_server_ok tcp udp ip st h, ?_⟩
  intro p q ip2 t1 t2 t3 heq
  exact ok_no_create_after_add st _ (add_server_ok tcp udp ip st h)
    p q ip2 t1 t2 t3 heq

/-- Witness for claim C6 on one TCP port 80 and one UDP port 442 from the
empty initial state. -/
theorem claim_C6_witness :
    okTrace ⟨[], []⟩ (add_server_to_lvs [80] [442] "10.1.1.2" ⟨[], []⟩).2 = true :=
  (claim_C6_ensure_before_add [80] [442] "10.1.1.2" ⟨[], []⟩
    (List.nil_subset _)).1

/-! Reachable states of the reconciliation layer: any interleaving of
onBecameUp (add_server_to_lvs) and onBecameDown (remove_server_from_lvs)
calls, starting from an empty registry, as main performs them on state
transitions (lines 188-194). -/

/-- One reconciliation invocation as performed by the main loop. -/
inductive Op
  | up (tcp udp : List Int) (ip : String)
  | down (tcp udp : List Int) (ip : String)

/-- Effect and trace of one reconciliation invocation.  The remove calls
consult no state and mutate none (lines 143-162). -/
def applyOp (st : LBState) : Op → LBState × List Event
  | .up tcp udp ip => add_server_to_lvs tcp udp ip st
  | .down tcp udp ip => (st, remove_server_from_lvs tcp udp ip)

/-- Run of a sequence of reconciliation invocations. -/
def runOps : LBState → List Op → LBState × List Event
  | st, [] => (st, [])
  | st, op :: rest =>
      let r1 := applyOp st op
      let r2 := runOps r1.1 rest
      (r2.1, r1.2 ++ r2.2)

theorem runOps_created_iff (p : Proto) (q : Int) (ops : List Op) :
    ∀ st : LBState,
      ((⟨p, q⟩ : Key) ∈ (runOps st ops).1.created_services
        ↔ (⟨p, q⟩ : Key) ∈ st.created_services
          ∨ Event.createService p q ∈ (runOps st ops).2) := by
  induction ops with
  | nil => intro st; simp [runOps]
  | cons op rest ih =>
      intro st
      show (⟨p, q⟩ : Key) ∈ (runOps (applyOp st op).1 rest).1.created_services
        ↔ _ ∨ Event.createService p q ∈ (applyOp st op).2 ++ (runOps (applyOp st op).1 rest).2
      rw [ih _]
      simp only [List.mem_append]
      cases op with
      | up tcp udp ip =>
          rw [show (applyOp st (.up tcp udp ip)) = add_server_to_lvs tcp udp ip st
            from rfl]
          rw [add_server_created_iff tcp udp ip st p q]
          tauto
      | down tcp udp ip =>
          rw [show (applyOp st (.down tcp udp ip))
            = (st, remove_server_from_lvs tcp udp ip) from rfl]
          have := remove_no_create tcp udp ip p q
          tauto

/-- Claim C9: in every state reachable from process start (empty registry,
arbitrary pre-existing services on the load balancer), a (protocol, port)
key is in created_services exactly when this process has issued a
create-service call for it; and whenever a key is not recorded in the
registry, ensureService for that key performs the external existence check
(emits the check call) again. -/
theorem claim_C9_registry_tracks_creates (ops : List Op) (lb0 : List Key)
    (p : Proto) (q : Int) :
    ((⟨p, q⟩ : Key) ∈ (runOps ⟨[], lb0⟩ ops).1.created_services
      ↔ Event.createService p q ∈ (runOps ⟨[], lb0⟩ ops).2)
    ∧ ∀ (ty : Proto) (port : Int) (st : LBState),
        (⟨ty, port⟩ : Key) ∉ st.created_services →
        Event.checkService ty port ∈ (create_service_if_needed ty port st).2 := by
  constructor
  · rw [runOps_created_iff p q ops ⟨[], lb0⟩]
    simp
  · exact fun ty port st h => ensure_check_of_not_recorded ty port st h

/-- Witness for claim C9: a single up invocation from the initial state, and
the check call emitted for an unrecorded key. -/
theorem claim_C9_witness :
    ((⟨.TCP, 80⟩ : Key)
        ∈ (runOps ⟨[], []⟩ [.up [80] [] "10.1.1.2"]).1.created_services
      ↔ Event.createService .TCP 80
        ∈ (runOps ⟨[], []⟩ [.up [80] [] "10.1.1.2"]).2)
    ∧ Event.checkService .UDP 442
        ∈ (create_service_if_needed .UDP 442 ⟨[], []⟩).2 :=
  ⟨(claim_C9_registry_tracks_creates [.up [80] [] "10.1.1.2"] [] .TCP 80).1,
   (claim_C9_registry_tracks_creates [] [] .TCP 80).2 .UDP 442 ⟨[], []⟩
     (by simp)⟩

/-! The per-target slice of the main loop (lines 176-194): probe, record,
average, evaluate and, on a transition, reconcile.  The loop body for one
target is a pure function of the probe result once the external calls are
captured in the trace. -/

/-- Per-target mutable state: the loss history deque and the status string. -/
structure TargetState where
  history : List Nat
  status : HealthState
deriving DecidableEq

/-- Initial per-target state (lines 170-171): empty history and UNKNOWN. -/
def initTargetState : TargetState :=
  ⟨[], .UNKNOWN⟩

/-- One iteration of the main loop for one target with probe result loss
(lines 177-194): record the sample, recompute the average, then the
threshold policy: at or above T and not DOWN, remove the server and mark
DOWN; below T and not UP, add the server and mark UP; else no action. -/
def stepTarget (W T : Nat) (tcp udp : List Int) (ip : String)
    (ts : TargetState) (st : LBState) (loss : Nat) :
    TargetState × LBState × List Event :=
  if average_loss (record W ts.history loss) ≥ T ∧ ts.status ≠ .DOWN then
    (⟨record W ts.history loss, .DOWN⟩, st, remove_server_from_lvs tcp udp ip)
  else if average_loss (record W ts.history loss) < T ∧ ts.status ≠ .UP then
    (⟨record W ts.history loss, .UP⟩,
     (add_server_to_lvs tcp udp ip st).1,
     (add_server_to_lvs tcp udp ip st).2)
  else (⟨record W ts.history loss, ts.status⟩, st, [])

/-- Iterating the loop over a sequence of probe results for one target. -/
def runTarget (W T : Nat) (tcp udp : List Int) (ip : String) :
    TargetState → LBState → List Nat → TargetState × LBState × List Event
  | ts, st, [] => (ts, st, [])
  | ts, st, loss :: rest =>
      let r1 := stepTarget W T tcp udp ip ts st loss
      let r2 := runTarget W T tcp udp ip r1.1 r1.2.1 rest
      (r2.1, r2.2.1, r1.2.2 ++ r2.2.2)

/-- Discriminator for remove-real-server calls. -/
def isRemoveEvent : Event → Bool
  | .removeReal _ _ _ => true
  | _ => false

/-- Discriminator for add-real-server calls. -/
def isAddEvent : Event → Bool
  | .addReal _ _ _ => true
  | _ => false

theorem remove_all_removeEvents (tcp udp : List Int) (ip : String) :
    (remove_server_from_lvs tcp udp ip).all isRemoveEvent = true := by
  rw [remove_server_from_lvs]
  rw [List.all_eq_true]
  intro e he
  simp only [List.mem_append, List.mem_map] at he
  rcases he with ⟨port, _, rfl⟩ | ⟨port, _, rfl⟩ <;> rfl

/-- Claim C5: the health state of a target is UNKNOWN initially, and after
any iteration of the loop body the state is UP or DOWN, never UNKNOWN: once
UP or DOWN has been reached the state is never set back to UNKNOWN. -/
theorem claim_C5_unknown_never_reentered :
    initTargetState.status = .UNKNOWN
    ∧ ∀ (W T : Nat) (tcp udp : List Int) (ip : String) (ts : TargetState)
        (st : LBState) (loss : Nat),
        (stepTarget W T tcp udp ip ts st loss).1.status ≠ .UNKNOWN := by
  refine ⟨rfl, ?_⟩
  intro W T tcp udp ip ts st loss
  rw [stepTarget]
  by_cases h1 : average_loss (record W ts.history loss) ≥ T ∧ ts.status ≠ .DOWN
  · rw [if_pos h1]
    simp
  · rw [if_neg h1]
    by_cases h2 : average_loss (record W ts.history loss) < T ∧ ts.status ≠ .UP
    · rw [if_pos h2]
      simp
    · rw [if_neg h2]
      intro hcontra
      simp only at hcontra
      rw [not_and_or] at h1 h2
      rcases h1 with h1 | h1
      · rcases h2 with h2 | h2
        · omega
        · rw [hcontra] at h2
          simp at h2
      · rw [hcontra] at h1
        simp at h1

/-- Witness for claim C5 at a concrete loop iteration. -/
theorem claim_C5_witness :
    (stepTarget 3 5 [80] [] "10.1.1.2" ⟨[], .UP⟩ ⟨[], []⟩ 0).1.status
      ≠ .UNKNOWN :=
  claim_C5_unknown_never_reentered.2 3 5 [80] [] "10.1.1.2" ⟨[], .UP⟩ ⟨[], []⟩ 0

/-- Claim C4: a target whose recorded samples are [100, 100, 100] from the
initial UNKNOWN state (window capacity at least 3 and threshold at most 100)
ends DOWN, the first evaluation being the transition with transitioned true,
and the calls issued along the way are remove-real-server calls only: no
add-real-server call is ever issued for that target. -/
theorem claim_C4_unhealthy_from_start (W T : Nat) (tcp udp : List Int)
    (ip : String) (lb0 : LBState) (hW : 3 ≤ W) (hT : T ≤ 100) :
    (runTarget W T tcp udp ip initTargetState lb0 [100, 100, 100]).1.status = .DOWN
    ∧ (runTarget W T tcp udp ip initTargetState lb0
        [100, 100, 100]).2.2.all isRemoveEvent = true
    ∧ (runTarget W T tcp udp ip initTargetState lb0
        [100, 100, 100]).2.2.countP isAddEvent = 0
    ∧ evaluate T (average_loss (record W [] 100)) .UNKNOWN = (.DOWN, true) := by
  have hr1 : record W ([] : List Nat) 100 = [100] := by
    rw [record_of_room W [] 100 (by simp; omega)]
    rfl
  have ha1 : average_loss [100] = 100 := by
    rw [average_loss]
    rfl
  have hr2 : record W [100] 100 = [100, 100] := by
    rw [record_of_room W [100] 100 (by simp; omega)]
    rfl
  have ha2 : average_loss [100, 100] = 100 := by
    rw [average_loss]
    norm_num
  have hr3 : record W [100, 100] 100 = [100, 100, 100] := by
    rw [record_of_room W [100, 100] 100 (by simp; omega)]
    rfl
  have ha3 : average_loss [100, 100, 100] = 100 := by
    rw [average_loss]
    norm_num
  have hstep1 : stepTarget W T tcp udp ip initTargetState lb0 100
      = (⟨[100], .DOWN⟩, lb0, remove_server_from_lvs tcp udp ip) := by
    rw [stepTarget]
    rw [show initTargetState.history = ([] : List Nat) from rfl, hr1, ha1]
    rw [if_pos ⟨by omega, by rw [show initTargetState.status = .UNKNOWN from rfl]; simp⟩]
  have hstep2 : stepTarget W T tcp udp ip ⟨[100], .DOWN⟩ lb0 100
      = (⟨[100, 100], .DOWN⟩, lb0, []) := by
    rw [stepTarget]
    simp only [hr2, ha2]
    rw [if_neg (by simp), if_neg (by rintro ⟨c1, _⟩; omega)]
  have hstep3 : stepTarget W T tcp udp ip ⟨[100, 100], .DOWN⟩ lb0 100
      = (⟨[100, 100, 100], .DOWN⟩, lb0, []) := by
    rw [stepTarget]
    simp only [hr3, ha3]
    rw [if_neg (by simp), if_neg (by rintro ⟨c1, _⟩; omega)]
  have hrun : runTarget W T tcp udp ip initTargetState lb0 [100, 100, 100]
      = (⟨[100, 100, 100], .DOWN⟩, lb0,
         remove_server_from_lvs tcp udp ip ++ ([] ++ ([] ++ []))) := by
    rw [runTarget, hstep1]
    simp only
    rw [runTarget, hstep2]
    simp only
    rw [runTarget, hstep3]
    simp only
    rw [runTarget]
  refine ⟨?_, ?_, ?_, ?_⟩
  · rw [hrun]
  · rw [hrun]
    simp only [List.append_nil]
    exact remove_all_removeEvents tcp udp ip
  · rw [hrun]
    simp only [List.append_nil]
    rw [List.countP_eq_zero]
    intro e he
    have hall := remove_all_removeEvents tcp udp ip
    rw [List.all_eq_true] at hall
    have := hall e he
    cases e <;> simp_all [isRemoveEvent, isAddEvent]
  · rw [hr1, ha1, evaluate, if_pos ⟨by omega, by simp⟩]

/-- Witness for claim C4 with window 3, the configured threshold 5, one TCP
port and one UDP port. -/
theorem claim_C4_witness :
    (3 ≤ 3 ∧ 5 ≤ 100)
    ∧ (runTarget 3 5 [80] [442] "10.1.1.2" initTargetState ⟨[], []⟩
        [100, 100, 100]).1.status = .DOWN :=
  ⟨⟨by decide, by decide⟩,
   (claim_C4_unhealthy_from_start 3 5 [80] [442] "10.1.1.2" ⟨[], []⟩
     (by decide) (by decide)).1⟩

/-! Probe model: function ping_server (lines 61-87).  The external side of
the probe (the popen of timeout + ping) is abstracted to an Option String:
none models a pipe that could not be opened (line 67), some out models the
captured stdout and stderr text, whatever it is, including the output of a
timed-out or failed ping.  The regex search for the pattern
digits(.digits)? percent, optional whitespace, then the words packet loss
(line 76) is embedded operationally by matchAt and searchLoss below; the
float parse of the matched number followed by the int cast (lines 80-83) is
embedded as the value of the integer digits of the match, which is exactly
truncation toward zero for every value whose integer part is exactly
representable in a float, as every percentage is. -/

/-- Digit class of the regex. -/
def isDigitChar (c : Char) : Bool :=
  '0' ≤ c && c ≤ '9'

/-- Whitespace class of the regex. -/
def isSpaceChar (c : Char) : Bool :=
  c == ' ' || c == '\t' || c == '\n' || c == '\x0b' || c == '\x0c' || c == '\r'

/-- Numeric value of a digit string. -/
def natOfDigits (ds : List Char) : Nat :=
  ds.foldl (fun a c => a * 10 + (c.toNat - '0'.toNat)) 0

/-- Match attempt of the loss regex anchored at the head of cs, returning
the truncated numeric value of the matched percentage.  The regex is
digits, an optional dot-digits fraction, a percent sign, optional
whitespace, and the literal packet loss.  Greedy matching without
backtracking is exact for this pattern: a shortened digit or fraction run
leaves a digit where a dot or percent sign is required, an omitted fraction
leaves the dot where the percent sign is required, and a shortened
whitespace run leaves whitespace where the literal must start, so every
backtracking alternative fails whenever the greedy one does. -/
def matchAt (cs : List Char) : Option Nat :=
  if (cs.takeWhile isDigitChar).isEmpty then none
  else
    match
      (match cs.drop (cs.takeWhile isDigitChar).length with
       | '.' :: r =>
           if (r.takeWhile isDigitChar).isEmpty then
             cs.drop (cs.takeWhile isDigitChar).length
           else r.drop (r.takeWhile isDigitChar).length
       | r1 => r1)
    with
    | '%' :: r3 =>
        if ("packet loss".data).isPrefixOf (r3.dropWhile isSpaceChar) then
          some (natOfDigits (cs.takeWhile isDigitChar))
        else none
    | _ => none

/-- Leftmost regex search over the output, as std regex_search performs. -/
def searchLoss : List Char → Option Nat
  | [] => none
  | c :: rest =>
      match matchAt (c :: rest) with
      | some v => some v
      | none => searchLoss rest

/-- Function ping_server (lines 61-87): 100 when the pipe cannot be opened,
100 when no packet-loss percentage can be parsed from the output (which
covers timeouts, unresolvable names and malformed output), otherwise the
parsed percentage truncated to an integer. -/
def ping_server (probe : Option String) : Nat :=
  match probe with
  | none => 100
  | some out =>
      match searchLoss out.data with
      | some v => v
      | none => 100

theorem matchAt_nil : matchAt [] = none := rfl

theorem searchLoss_eq_none (cs : List Char)
    (h : ∀ i, matchAt (cs.drop i) = none) : searchLoss cs = none := by
  induction cs with
  | nil => rfl
  | cons c rest ih =>
      have h0 : matchAt (c :: rest) = none := h 0
      rw [searchLoss, h0]
      exact ih fun i => by
        have := h (i + 1)
        rwa [List.drop_succ_cons] at this

theorem searchLoss_leftmost (cs : List Char) :
    ∀ (i v : Nat), matchAt (cs.drop i) = some v →
      (∀ j, j < i → matchAt (cs.drop j) = none) →
      searchLoss cs = some v := by
  induction cs with
  | nil =>
      intro i v hm _
      rw [List.drop_nil, matchAt_nil] at hm
      exact Option.noConfusion hm
  | cons c rest ih =>
      intro i v hm hnone
      cases i with
      | zero =>
          rw [List.drop_zero] at hm
          rw [searchLoss, hm]
      | succ i =>
          have h0 : matchAt (c :: rest) = none := hnone 0 (Nat.succ_pos i)
          rw [searchLoss, h0]
          rw [List.drop_succ_cons] at hm
          exact ih i v hm fun j hj => by
            have := hnone (j + 1) (by omega)
            rwa [List.drop_succ_cons] at this

/-- Claim C7: ping_server never throws (it is a total function of the probe
outcome), returns the full-loss sentinel 100 when the pipe cannot be opened
or when the output admits no match of the packet-loss pattern at any
position (which covers timeouts and malformed output), and returns the
truncated value of the leftmost match when one exists. -/
theorem claim_C7_ping_full_loss_sentinel :
    ping_server none = 100
    ∧ (∀ s : String,
        (∀ i, i ≤ s.data.length → matchAt (s.data.drop i) = none) →
        ping_server (some s) = 100)
    ∧ (∀ (s : String) (i v : Nat), matchAt (s.data.drop i) = some v →
        (∀ j, j < i → matchAt (s.data.drop j) = none) →
        ping_server (some s) = v) := by
  refine ⟨rfl, ?_, ?_⟩
  · intro s h
    have hall : ∀ i, matchAt (s.data.drop i) = none := by
      intro i
      by_cases hi : i ≤ s.data.length
      · exact h i hi
      · rw [List.drop_eq_nil_of_le (by omega), matchAt_nil]
    rw [ping_server, searchLoss_eq_none s.data hall]
  · intro s i v hm hnone
    rw [ping_server, searchLoss_leftmost s.data i v hm hnone]

/-- Witness for claim C7: a ping-like output line whose leftmost match is
7.5, truncated to 7, and the sentinel on unparseable output. -/
theorem claim_C7_witness :
    matchAt (("ab 7.5% packet loss").data.drop 3) = some 7
    ∧ ping_server (some "ab 7.5% packet loss") = 7 :=
  ⟨by decide,
   claim_C7_ping_full_loss_sentinel.2.2 "ab 7.5% packet loss" 3 7
     (by decide) (by decide)⟩

/-! Port expansion model: function expand_ports (lines 38-58).  The stream
extractions int, char, int of the range branch (lines 43-46) and the stoi of
the single-port branch (line 53) are embedded with the C++ semantics:
leading whitespace skipped, an optional sign, then at least one digit;
no digit means extraction failure and a value outside the int range means
failure or a throw.  A range entry whose later extractions fail leaves the
variable end uninitialized in the source (undefined behavior), and a failing
stoi throws; both are modelled as none. -/

/-- Stream extraction of an int (operator shift-in on an int, C++11). -/
def readIntCore (cs : List Char) : Option (Int × List Char) :=
  match cs.dropWhile isSpaceChar with
  | '-' :: r =>
      if (r.takeWhile isDigitChar).isEmpty then none
      else if (natOfDigits (r.takeWhile isDigitChar) : Int) > 2147483648 then none
      else some (-(natOfDigits (r.takeWhile isDigitChar) : Int),
                 r.drop (r.takeWhile isDigitChar).length)
  | '+' :: r =>
      if (r.takeWhile isDigitChar).isEmpty then none
      else if (natOfDigits (r.takeWhile isDigitChar) : Int) > 2147483647 then none
      else some ((natOfDigits (r.takeWhile isDigitChar) : Int),
                 r.drop (r.takeWhile isDigitChar).length)
  | cs1 =>
      if (cs1.takeWhile isDigitChar).isEmpty then none
      else if (natOfDigits (cs1.takeWhile isDigitChar) : Int) > 2147483647 then none
      else some ((natOfDigits (cs1.takeWhile isDigitChar) : Int),
                 cs1.drop (cs1.takeWhile isDigitChar).length)

/-- Stream extraction of a char: skip whitespace, take the next character
(the source reads the dash into a char this way, line 46). -/
def readCharCore (cs : List Char) : Option (Char × List Char) :=
  match cs.dropWhile isSpaceChar with
  | [] => none
  | c :: r => some (c, r)

/-- The extraction sequence int, char, int of the range branch (line 46). -/
def parseRange (p : String) : Option (Int × Int) :=
  match readIntCore p.data with
  | none => none
  | some (a, r1) =>
      match readCharCore r1 with
      | none => none
      | some (_, r2) =>
          match readIntCore r2 with
          | none => none
          | some (b, _) => some (a, b)

/-- std stoi on the single-port branch (line 53), none modelling a throw. -/
def stoi (s : String) : Option Int :=
  (readIntCore s.data).map (fun r => r.1)

/-- The inclusive loop for i from a to b (lines 49-50). -/
def intRange (a b : Int) : List Int :=
  (List.range (b + 1 - a).toNat).map (fun k => a + k)

/-- One entry of the port list (lines 41-54): entries containing a dash are
parsed as ranges and expanded only when start does not exceed end; other
entries go through stoi. -/
def expandEntry (p : String) : Option (List Int) :=
  if p.data.contains '-' then
    match parseRange p with
    | some (s, t) => some (if s ≤ t then intRange s t else [])
    | none => none
  else
    (stoi p).map (fun n => [n])

/-- Function expand_ports (lines 38-58): concatenation of the expansions of
all entries in order. -/
def expand_ports : List String → Option (List Int)
  | [] => some []
  | p :: rest =>
      match expandEntry p, expand_ports rest with
      | some xs, some ys => some (xs ++ ys)
      | _, _ => none

theorem expand_ports_cons (p : String) (rest : List String) :
    expand_ports (p :: rest)
      = match expandEntry p, expand_ports rest with
        | some xs, some ys => some (xs ++ ys)
        | _, _ => none :=
  rfl

/-- Claim C10: a port-specification entry containing a dash whose parsed
start exceeds its parsed end contributes no ports and signals no error: the
inverted range is silently dropped, and the whole expansion equals the
expansion of the list without that entry, all other entries being expanded
normally. -/
theorem claim_C10_inverted_range_dropped (pre post : List String) (e : String)
    (s t : Int) (hdash : e.data.contains '-' = true)
    (hparse : parseRange e = some (s, t)) (hinv : t < s) :
    expandEntry e = some []
    ∧ expand_ports (pre ++ e :: post) = expand_ports (pre ++ post) := by
  have hentry : expandEntry e = some [] := by
    rw [expandEntry, if_pos hdash, hparse]
    show some (if s ≤ t then intRange s t else []) = some []
    rw [if_neg (by omega)]
  refine ⟨hentry, ?_⟩
  induction pre with
  | nil =>
      rw [List.nil_append, List.nil_append, expand_ports_cons, hentry]
      cases hpost : expand_ports post with
      | none => rfl
      | some ys => simp
  | cons p pre ih =>
      rw [List.cons_append, List.cons_append, expand_ports_cons,
        expand_ports_cons, ih]

/-- Witness for claim C10 at the entry 9-5 between ports 80 and 443. -/
theorem claim_C10_witness :
    (("9-5" : String).data.contains '-' = true
      ∧ parseRange "9-5" = some (9, 5) ∧ (5 : Int) < 9)
    ∧ expand_ports (["80"] ++ "9-5" :: ["443"]) = expand_ports (["80"] ++ ["443"]) :=
  ⟨⟨by decide, by decide, by decide⟩,
   (claim_C10_inverted_range_dropped ["80"] ["443"] "9-5" 9 5
     (by decide) (by decide) (by decide)).2⟩

end LVSMonitor
